import Mathlib

/-!
Shallow embedding of `check_postfix_blocked.py`, a Nagios plugin that scans
mail log lines in syslog format, counts outbound messages whose delivery
bounced or was deferred, classifies the "worrisome" subset rejected by
spam/blocklist heuristics, and alerts on supplied thresholds.

Log lines are modelled as `List Char` (one line of the scanned file).  The
two regular expressions of the source are embedded as executable search
functions over `List Char`:

* `bounced_re = " postfix/smtp\[\d+\]: ([0-9A-Za-z]+): .*, status=(?:bounced|deferred) "`
  becomes `searchBounced`, which returns the captured queue id.
* `site_rejection_re`, the case-insensitive alternation of
  `" said: 550 .*spam"`, `" said: 550 .*blocked"` and `" said: 451 .*busy"`,
  becomes `isRejection`.

The `PostfixBounces` class becomes a structure; the Python dictionaries used
as insertion-ordered sets become duplicate-free lists built by `dictInsert`;
the diagnostic writes to `sys.stderr` become an explicit `stderrTrace` field.
-/

/-- Nagios status code `OK = 0` from the source header. -/
def OK : Int := 0

/-- Nagios status code `WARNING = 1` from the source header. -/
def WARNING : Int := 1

/-- Nagios status code `CRITICAL = 2` from the source header. -/
def CRITICAL : Int := 2

/-- Nagios status code `UNKNOWN = 3` from the source header. -/
def UNKNOWN : Int := 3

/-- Consume the literal `p` from the front of `s`, returning the remainder on
success: `matchLit p s = some r` exactly when `s = p ++ r`. -/
def matchLit : List Char → List Char → Option (List Char)
  | [], s => some s
  | _ :: _, [] => none
  | p :: ps, c :: s => if c = p then matchLit ps s else none

/-- Literal segment `" postfix/smtp["` opening `bounced_re`. -/
def smtpTag : List Char :=
  [' ', 'p', 'o', 's', 't', 'f', 'i', 'x', '/', 's', 'm', 't', 'p', '[']

/-- Literal segment `"]: "` of `bounced_re`, closing the pid bracket. -/
def closeTag : List Char := [']', ':', ' ']

/-- Literal segment `": "` of `bounced_re`, following the queue id. -/
def colonSpace : List Char := [':', ' ']

/-- Literal segment `", status="` of `bounced_re`. -/
def statusEqL : List Char := [',', ' ', 's', 't', 'a', 't', 'u', 's', '=']

/-- The status word `"bounced"` of `bounced_re`. -/
def bouncedW : List Char := ['b', 'o', 'u', 'n', 'c', 'e', 'd']

/-- The status word `"deferred"` of `bounced_re`. -/
def deferredW : List Char := ['d', 'e', 'f', 'e', 'r', 'r', 'e', 'd']

/-- The complete literal `", status=bounced "` ending `bounced_re`. -/
def litBounced : List Char := statusEqL ++ bouncedW ++ [' ']

/-- The complete literal `", status=deferred "` ending `bounced_re`. -/
def litDeferred : List Char := statusEqL ++ deferredW ++ [' ']

/-- Search for the tail `", status=(?:bounced|deferred) "` of `bounced_re`
anywhere in `s`, allowing only non-newline characters (the `.*`) before the
match. -/
def findStatus : List Char → Bool
  | [] => false
  | c :: rest =>
    (matchLit litBounced (c :: rest)).isSome ||
    (matchLit litDeferred (c :: rest)).isSome ||
    ((c != '\n') && findStatus rest)

/-- Attempt to match `bounced_re` with the match starting exactly at the head
of `s`, returning the queue id captured by group 1 (`[0-9A-Za-z]+`).  The
quantified pieces `\d+` and `[0-9A-Za-z]+` are each followed by a character
their class excludes, so the greedy maximal run is the only possible match
and no backtracking is needed. -/
def matchBouncedAt (s : List Char) : Option (List Char) :=
  match matchLit smtpTag s with
  | none => none
  | some s1 =>
    if s1.takeWhile Char.isDigit = [] then none
    else
      match matchLit closeTag (s1.dropWhile Char.isDigit) with
      | none => none
      | some s2 =>
        if s2.takeWhile Char.isAlphanum = [] then none
        else
          match matchLit colonSpace (s2.dropWhile Char.isAlphanum) with
          | none => none
          | some s3 =>
            if findStatus s3 then some (s2.takeWhile Char.isAlphanum)
            else none

/-- Embedding of `re.search(bounced_re, line)`: try `matchBouncedAt` at every
start position from the left and return the first captured queue id. -/
def searchBounced : List Char → Option (List Char)
  | [] => none
  | c :: rest =>
    match matchBouncedAt (c :: rest) with
    | some q => some q
    | none => searchBounced rest

/-- Literal segment `" said: 550 "` of the first two rejection patterns. -/
def said550 : List Char :=
  [' ', 's', 'a', 'i', 'd', ':', ' ', '5', '5', '0', ' ']

/-- Literal segment `" said: 451 "` of the third rejection pattern. -/
def said451 : List Char :=
  [' ', 's', 'a', 'i', 'd', ':', ' ', '4', '5', '1', ' ']

/-- The word `"spam"` ending the first rejection pattern. -/
def spamW : List Char := ['s', 'p', 'a', 'm']

/-- The word `"blocked"` ending the second rejection pattern. -/
def blockedW : List Char := ['b', 'l', 'o', 'c', 'k', 'e', 'd']

/-- The word `"busy"` ending the third rejection pattern. -/
def busyW : List Char := ['b', 'u', 's', 'y']

/-- Search for `suf` anywhere in `s`, allowing only non-newline characters
(the `.*` of a rejection pattern) before the match. -/
def findTail (suf : List Char) : List Char → Bool
  | [] => (matchLit suf []).isSome
  | c :: rest =>
    (matchLit suf (c :: rest)).isSome || ((c != '\n') && findTail suf rest)

/-- Search `s` for an occurrence of `pre` followed (after any run of
non-newline characters) by `suf`: the embedding of searching one rejection
alternative `pre ++ ".*" ++ suf`. -/
def searchSaid (pre suf : List Char) : List Char → Bool
  | [] => false
  | c :: rest =>
    (match matchLit pre (c :: rest) with
     | some r => findTail suf r
     | none => false) ||
    searchSaid pre suf rest

/-- Embedding of `re.search(site_rejection_re, line)` where
`site_rejection_re` joins the three rejection patterns with `|` under
`re.IGNORECASE`: the line is lowercased (the patterns are already lowercase
ASCII) and any one alternative matching suffices. -/
def isRejection (line : List Char) : Bool :=
  let l := line.map Char.toLower
  searchSaid said550 spamW l || searchSaid said550 blockedW l ||
    searchSaid said451 busyW l

/-- State of a `PostfixBounces` object.  The constructor arguments
`filehandle, warn, crit, debug` become fields (the file handle itself is
replaced by passing the line sequence to `process`); the dictionaries
`blocked` and `worrisome` are modelled as insertion-ordered duplicate-free
key lists; writes to `sys.stderr` are recorded in `stderrTrace`. -/
structure PostfixBounces where
  warn : Option Int
  crit : Option Int
  debug : Bool
  processed : Bool
  blocked : List (List Char)
  worrisome : List (List Char)
  exit_code : Option Int
  exit_note : Option String
  stderrTrace : List (List Char)

/-- Embedding of `PostfixBounces.__init__`: both sets empty, nothing
processed, no exit code or note yet. -/
def PostfixBounces.init (warn crit : Option Int) (debug : Bool) :
    PostfixBounces :=
  ⟨warn, crit, debug, false, [], [], none, none, []⟩

/-- Embedding of `self.d[k] = True` on a Python dict used as a set: append
the key if absent, keeping the key list duplicate-free. -/
def dictInsert (k : List Char) (d : List (List Char)) : List (List Char) :=
  if k ∈ d then d else d ++ [k]

/-- One iteration of the `for line in self.fh` loop of `process`: on a
`bounced_re` match insert the queue id into `blocked` (tracing when
debugging), and if `site_rejection_re` also matches insert it into
`worrisome` (tracing again). -/
def processLine (pb : PostfixBounces) (line : List Char) : PostfixBounces :=
  match searchBounced line with
  | none => pb
  | some queue_id =>
    let blocked' := dictInsert queue_id pb.blocked
    let trace1 :=
      if pb.debug then
        pb.stderrTrace ++ ["blocked: ".toList ++ line]
      else pb.stderrTrace
    if isRejection line then
      { pb with
          blocked := blocked'
          worrisome := dictInsert queue_id pb.worrisome
          stderrTrace :=
            if pb.debug then trace1 ++ ["worrisome: ".toList ++ line]
            else trace1 }
    else
      { pb with blocked := blocked', stderrTrace := trace1 }

/-- Embedding of `PostfixBounces.process`: fold the loop body over the line
sequence, then set `processed`. -/
def PostfixBounces.process (pb : PostfixBounces) (lines : List (List Char)) :
    PostfixBounces :=
  { lines.foldl processLine pb with processed := true }

/-- Python comparison `n >= t` against a threshold that may be `None`: under
the Python 2 ordering used by the source, `None` sorts below every integer,
so a missing threshold is always met. -/
def pyGe (n : Int) (t : Option Int) : Bool :=
  match t with
  | none => true
  | some t => decide (t ≤ n)

/-- The `status_string` lookup table of `report`.  The source dict holds
exactly the four Nagios codes; `report` only ever looks those up, so the
fallthrough branch is unreachable there. -/
def statusString (c : Int) : String :=
  if c = OK then "OK"
  else if c = WARNING then "WARN"
  else if c = CRITICAL then "CRITICAL"
  else "UNKNOWN"

/-- Embedding of `PostfixBounces.report`: before any processing, exit code
`UNKNOWN` with the no-analysis note; otherwise compare the worrisome count
against `crit` then `warn` and format the status note with both counts. -/
def PostfixBounces.report (pb : PostfixBounces) : PostfixBounces :=
  let blocked_count := pb.blocked.length
  let worrisome_count := pb.worrisome.length
  if pb.processed = false then
    { pb with
        exit_code := some UNKNOWN
        exit_note :=
          some (statusString UNKNOWN ++ " No mail log analysis to report on") }
  else
    let code :=
      if pyGe worrisome_count pb.crit then CRITICAL
      else if pyGe worrisome_count pb.warn then WARNING
      else OK
    { pb with
        exit_code := some code
        exit_note :=
          some (statusString code ++ " " ++ toString worrisome_count ++
            " worrisome | blocked=" ++ toString blocked_count ++
            " worrisome=" ++ toString worrisome_count) }

/-- Result of `main`: either the usage-help path (with its return code), or a
full run producing the final `exit_code` and `exit_note`. -/
inductive MainResult where
  | usageHelp : Int → MainResult
  | ran : Option Int → Option String → MainResult

/-- Whether a `MainResult` came from an actual scan rather than the
usage-help path. -/
def MainResult.isRan : MainResult → Bool
  | .usageHelp _ => false
  | .ran _ _ => true

/-- Python truthiness of an `optparse` integer option: `None` and `0` are
falsy, every other integer is truthy. -/
def truthyInt : Option Int → Bool
  | none => false
  | some n => n != 0

/-- Embedding of the source function `main` (the name `main` is reserved by
Lean for executables): if neither threshold option is truthy, print the
help text and return `UNKNOWN`; otherwise construct the object, process the
file's lines and report. -/
def mainRun (warn crit : Option Int) (verbose : Nat) (lines : List (List Char)) :
    MainResult :=
  if !truthyInt warn && !truthyInt crit then
    .usageHelp UNKNOWN
  else
    let pb := PostfixBounces.init warn crit (decide (verbose > 2))
    let pb := pb.process lines
    let pb := pb.report
    .ran pb.exit_code pb.exit_note

/-- Substring test: `containsSeq pat s = true` exactly when `pat` occurs
contiguously somewhere in `s`. -/
def containsSeq (pat : List Char) : List Char → Bool
  | [] => (matchLit pat []).isSome
  | c :: rest => (matchLit pat (c :: rest)).isSome || containsSeq pat rest

/-- Specification-side reading of the primary pattern `bounced_re`: the line
contains the delivery-agent tag `" postfix/smtp["`, a nonempty pid digit
run, `"]: "`, a nonempty alphanumeric identifier token, `": "`, then later
in the line (across non-newline characters only) the field
`", status=bounced "` or `", status=deferred "`, matched case-sensitively. -/
def SpecDeliveryFailure (line : List Char) : Prop :=
  ∃ a ds qid mid stat r,
    line = a ++ smtpTag ++ ds ++ closeTag ++ qid ++ colonSpace ++ mid ++
      statusEqL ++ stat ++ [' '] ++ r ∧
    ds ≠ [] ∧ (∀ c ∈ ds, c.isDigit = true) ∧
    qid ≠ [] ∧ (∀ c ∈ qid, c.isAlphanum = true) ∧
    (∀ c ∈ mid, c ≠ '\n') ∧
    (stat = bouncedW ∨ stat = deferredW)

/-- Specification-side reading of the secondary pattern: the lowercased line
contains one of the three rejection signatures — `" said: 550 "` followed
later (across non-newline characters) by `"spam"`, or `" said: 550 "`
followed by `"blocked"`, or `" said: 451 "` followed by `"busy"`. -/
def SpecRejection (line : List Char) : Prop :=
  (∃ a m r, line.map Char.toLower = a ++ said550 ++ m ++ spamW ++ r ∧
    ∀ c ∈ m, c ≠ '\n') ∨
  (∃ a m r, line.map Char.toLower = a ++ said550 ++ m ++ blockedW ++ r ∧
    ∀ c ∈ m, c ≠ '\n') ∨
  (∃ a m r, line.map Char.toLower = a ++ said451 ++ m ++ busyW ++ r ∧
    ∀ c ∈ m, c ≠ '\n')

/-- Specification-side reading of `bounced_re` anchored at the start of `s`:
the decomposition a successful `matchBouncedAt` witnesses. -/
def SpecBouncedAt (s : List Char) : Prop :=
  ∃ ds qid mid stat r,
    s = smtpTag ++ ds ++ closeTag ++ qid ++ colonSpace ++ mid ++
      statusEqL ++ stat ++ [' '] ++ r ∧
    ds ≠ [] ∧ (∀ c ∈ ds, c.isDigit = true) ∧
    qid ≠ [] ∧ (∀ c ∈ qid, c.isAlphanum = true) ∧
    (∀ c ∈ mid, c ≠ '\n') ∧
    (stat = bouncedW ∨ stat = deferredW)

/-! ### Basic lemmas about the literal matcher -/

theorem matchLit_eq_some (p : List Char) :
    ∀ s r : List Char, matchLit p s = some r ↔ s = p ++ r := by
  induction p with
  | nil => intro s r; simp [matchLit]
  | cons a p ih =>
    intro s r
    cases s with
    | nil => simp [matchLit]
    | cons c s =>
      by_cases h : c = a
      · subst h; simp [matchLit, ih]
      · simp [matchLit, h]

theorem matchLit_append (p r : List Char) : matchLit p (p ++ r) = some r :=
  (matchLit_eq_some p (p ++ r) r).mpr rfl

theorem matchLit_isSome_iff (p s : List Char) :
    (matchLit p s).isSome = true ↔ ∃ r, s = p ++ r := by
  rw [Option.isSome_iff_exists]
  exact exists_congr fun r => matchLit_eq_some p s r

/-- Splitting a `takeWhile`/`dropWhile` pair at a known boundary: a run
satisfying `p` followed by a character refuting `p`. -/
theorem takeWhile_app {p : Char → Bool} :
    ∀ (ds : List Char) (c0 : Char) (t : List Char),
      (∀ c ∈ ds, p c = true) → p c0 = false →
      (ds ++ c0 :: t).takeWhile p = ds ∧ (ds ++ c0 :: t).dropWhile p = c0 :: t := by
  intro ds
  induction ds with
  | nil =>
    intro c0 t _ hc0
    simp [List.takeWhile_cons, List.dropWhile_cons, hc0]
  | cons d ds ih =>
    intro c0 t hall hc0
    have hd : p d = true := hall d (by simp)
    have hds : ∀ c ∈ ds, p c = true := fun c hc => hall c (by simp [hc])
    have := ih c0 t hds hc0
    simp [List.takeWhile_cons, List.dropWhile_cons, hd, this.1, this.2]

/-! ### Characterization of `findStatus` -/

theorem findStatus_iff (s : List Char) :
    findStatus s = true ↔
      ∃ a b, s = a ++ b ∧ (∀ c ∈ a, c ≠ '\n') ∧
        ((∃ r, b = litBounced ++ r) ∨ (∃ r, b = litDeferred ++ r)) := by
  induction s with
  | nil =>
    simp only [findStatus]
    constructor
    · intro h; exact absurd h (by simp)
    · rintro ⟨a, b, hab, _, hb⟩
      have hb0 : b = [] := (List.append_eq_nil.mp hab.symm).2
      rcases hb with ⟨r, hr⟩ | ⟨r, hr⟩ <;> rw [hb0] at hr
      · exact absurd (List.append_eq_nil.mp hr.symm).1 (by decide)
      · exact absurd (List.append_eq_nil.mp hr.symm).1 (by decide)
  | cons c rest ih =>
    simp only [findStatus, Bool.or_eq_true, Bool.and_eq_true, bne_iff_ne,
      ne_eq, matchLit_isSome_iff, ih]
    constructor
    · rintro ((⟨r, hr⟩ | ⟨r, hr⟩) | ⟨hc, a, b, hab, ha, hb⟩)
      · exact ⟨[], c :: rest, rfl, by simp, Or.inl ⟨r, hr⟩⟩
      · exact ⟨[], c :: rest, rfl, by simp, Or.inr ⟨r, hr⟩⟩
      · refine ⟨c :: a, b, by simp [hab], ?_, hb⟩
        intro d hd
        rcases List.mem_cons.mp hd with h | h
        · rw [h]; exact hc
        · exact ha d h
    · rintro ⟨a, b, hab, ha, hb⟩
      cases a with
      | nil =>
        simp only [List.nil_append] at hab
        rcases hb with ⟨r, hr⟩ | ⟨r, hr⟩
        · exact Or.inl (Or.inl ⟨r, hab.trans hr⟩)
        · exact Or.inl (Or.inr ⟨r, hab.trans hr⟩)
      | cons a0 a' =>
        simp only [List.cons_append, List.cons.injEq] at hab
        refine Or.inr ⟨?_, a', b, hab.2, ?_, hb⟩
        · rw [hab.1]; exact ha a0 (by simp)
        · exact fun d hd => ha d (by simp [hd])

/-! ### Characterization of `matchBouncedAt` -/

theorem matchLit_cons_closeTag (t : List Char) :
    matchLit closeTag (']' :: ':' :: ' ' :: t) = some t := rfl

theorem matchLit_cons_colonSpace (t : List Char) :
    matchLit colonSpace (':' :: ' ' :: t) = some t := rfl

/-- Computation of `matchBouncedAt` on a string that decomposes along
`bounced_re`: the captured group is exactly the identifier token of the
decomposition. -/
theorem matchBouncedAt_value (ds qid mid stat r : List Char)
    (hds : ds ≠ []) (hdig : ∀ c ∈ ds, c.isDigit = true)
    (hqid : qid ≠ []) (haln : ∀ c ∈ qid, c.isAlphanum = true)
    (hmid : ∀ c ∈ mid, c ≠ '\n')
    (hstat : stat = bouncedW ∨ stat = deferredW) :
    matchBouncedAt (smtpTag ++ (ds ++ (']' :: ':' :: ' ' ::
        (qid ++ ':' :: ' ' :: (mid ++ (statusEqL ++ (stat ++ ' ' :: r))))))) =
      some qid := by
  have ht1 := takeWhile_app ds ']'
    (':' :: ' ' :: (qid ++ ':' :: ' ' :: (mid ++ (statusEqL ++ (stat ++ ' ' :: r)))))
    hdig (by decide)
  have ht2 := takeWhile_app qid ':'
    (' ' :: (mid ++ (statusEqL ++ (stat ++ ' ' :: r))))
    haln (by decide)
  have hfs : findStatus (mid ++ (statusEqL ++ (stat ++ ' ' :: r))) = true := by
    refine (findStatus_iff _).mpr ⟨mid, statusEqL ++ (stat ++ ' ' :: r), rfl, hmid, ?_⟩
    rcases hstat with h | h
    · exact Or.inl ⟨r, by rw [h]; simp [litBounced, List.append_assoc]⟩
    · exact Or.inr ⟨r, by rw [h]; simp [litDeferred, List.append_assoc]⟩
  simp only [matchBouncedAt, matchLit_append, ht1.1, ht1.2, if_neg hds,
    matchLit_cons_closeTag, ht2.1, ht2.2, if_neg hqid,
    matchLit_cons_colonSpace, if_pos hfs]

/-- `matchBouncedAt` succeeds exactly on strings admitting the
specification-side decomposition of `bounced_re`. -/
theorem matchBouncedAt_some_iff (s : List Char) :
    (matchBouncedAt s).isSome = true ↔ SpecBouncedAt s := by
  constructor
  · intro h
    simp only [matchBouncedAt] at h
    cases h1 : matchLit smtpTag s with
    | none => simp [h1] at h
    | some s1 =>
      simp only [h1] at h
      by_cases h2 : s1.takeWhile Char.isDigit = []
      · simp [h2] at h
      · rw [if_neg h2] at h
        cases h3 : matchLit closeTag (s1.dropWhile Char.isDigit) with
        | none => simp [h3] at h
        | some s2 =>
          simp only [h3] at h
          by_cases h4 : s2.takeWhile Char.isAlphanum = []
          · simp [h4] at h
          · rw [if_neg h4] at h
            cases h5 : matchLit colonSpace (s2.dropWhile Char.isAlphanum) with
            | none => simp [h5] at h
            | some s3 =>
              simp only [h5] at h
              by_cases h6 : findStatus s3 = true
              · have hs : s = smtpTag ++ s1 := (matchLit_eq_some _ _ _).mp h1
                have hd1 : s1.dropWhile Char.isDigit = closeTag ++ s2 :=
                  (matchLit_eq_some _ _ _).mp h3
                have hd2 : s2.dropWhile Char.isAlphanum = colonSpace ++ s3 :=
                  (matchLit_eq_some _ _ _).mp h5
                obtain ⟨mid, b, hZ, hmid, hb⟩ := (findStatus_iff s3).mp h6
                have e1 : s1 = s1.takeWhile Char.isDigit ++ (closeTag ++ s2) := by
                  rw [← hd1]; simp
                have e2 : s2 = s2.takeWhile Char.isAlphanum ++ (colonSpace ++ s3) := by
                  rw [← hd2]; simp
                have assemble : ∀ stat r : List Char,
                    b = statusEqL ++ stat ++ [' '] ++ r →
                    s = smtpTag ++ s1.takeWhile Char.isDigit ++ closeTag ++
                      s2.takeWhile Char.isAlphanum ++ colonSpace ++ mid ++
                      statusEqL ++ stat ++ [' '] ++ r := by
                  intro stat r hrb
                  calc s = smtpTag ++ s1 := hs
                    _ = smtpTag ++ (s1.takeWhile Char.isDigit ++ (closeTag ++ s2)) := by
                        rw [← e1]
                    _ = smtpTag ++ (s1.takeWhile Char.isDigit ++ (closeTag ++
                        (s2.takeWhile Char.isAlphanum ++ (colonSpace ++ s3)))) := by
                        rw [← e2]
                    _ = smtpTag ++ (s1.takeWhile Char.isDigit ++ (closeTag ++
                        (s2.takeWhile Char.isAlphanum ++ (colonSpace ++
                          (mid ++ (statusEqL ++ stat ++ [' '] ++ r)))))) := by
                        rw [← hrb, ← hZ]
                    _ = smtpTag ++ s1.takeWhile Char.isDigit ++ closeTag ++
                        s2.takeWhile Char.isAlphanum ++ colonSpace ++ mid ++
                        statusEqL ++ stat ++ [' '] ++ r := by
                        simp [List.append_assoc]
                rcases hb with ⟨r, hr⟩ | ⟨r, hr⟩
                · exact ⟨s1.takeWhile Char.isDigit, s2.takeWhile Char.isAlphanum,
                    mid, bouncedW, r,
                    assemble bouncedW r (by rw [hr]; simp [litBounced, List.append_assoc]),
                    h2, fun c hc => List.mem_takeWhile_imp hc,
                    h4, fun c hc => List.mem_takeWhile_imp hc,
                    hmid, Or.inl rfl⟩
                · exact ⟨s1.takeWhile Char.isDigit, s2.takeWhile Char.isAlphanum,
                    mid, deferredW, r,
                    assemble deferredW r (by rw [hr]; simp [litDeferred, List.append_assoc]),
                    h2, fun c hc => List.mem_takeWhile_imp hc,
                    h4, fun c hc => List.mem_takeWhile_imp hc,
                    hmid, Or.inr rfl⟩
              · simp [h6] at h
  · rintro ⟨ds, qid, mid, stat, r, heq, hds, hdig, hqid, haln, hmid, hstat⟩
    simp only [List.append_assoc, closeTag, colonSpace, List.cons_append,
      List.nil_append, List.singleton_append] at heq
    rw [heq, matchBouncedAt_value ds qid mid stat r hds hdig hqid haln hmid hstat]
    rfl

/-! ### Characterization of `searchBounced` -/

theorem searchBounced_isSome_iff (s : List Char) :
    (searchBounced s).isSome = true ↔
      ∃ a t, s = a ++ t ∧ (matchBouncedAt t).isSome = true := by
  induction s with
  | nil =>
    simp only [searchBounced]
    constructor
    · intro h; exact absurd h (by simp)
    · rintro ⟨a, t, hat, ht⟩
      have h0 : t = [] := (List.append_eq_nil.mp hat.symm).2
      rw [h0] at ht
      exact absurd ht (by decide)
  | cons c rest ih =>
    constructor
    · intro h
      cases h1 : matchBouncedAt (c :: rest) with
      | some q => exact ⟨[], c :: rest, rfl, by rw [h1]; rfl⟩
      | none =>
        simp only [searchBounced, h1] at h
        obtain ⟨a, t, hat, ht⟩ := ih.mp h
        exact ⟨c :: a, t, by simp [hat], ht⟩
    · rintro ⟨a, t, hat, ht⟩
      cases a with
      | nil =>
        simp only [List.nil_append] at hat
        obtain ⟨q, hq⟩ := Option.isSome_iff_exists.mp ht
        rw [← hat] at hq
        simp [searchBounced, hq]
      | cons a0 a' =>
        simp only [List.cons_append, List.cons.injEq] at hat
        have hrest := ih.mpr ⟨a', t, hat.2, ht⟩
        cases h1 : matchBouncedAt (c :: rest) with
        | some q => simp [searchBounced, h1]
        | none => simpa [searchBounced, h1] using hrest

/-- `searchBounced` succeeds exactly on lines satisfying the
specification-side decomposition of the primary pattern. -/
theorem searchBounced_spec_iff (line : List Char) :
    (searchBounced line).isSome = true ↔ SpecDeliveryFailure line := by
  rw [searchBounced_isSome_iff]
  constructor
  · rintro ⟨a, t, hat, ht⟩
    obtain ⟨ds, qid, mid, stat, r, hteq, props⟩ := (matchBouncedAt_some_iff t).mp ht
    exact ⟨a, ds, qid, mid, stat, r,
      by rw [hat, hteq]; simp [List.append_assoc], props⟩
  · rintro ⟨a, ds, qid, mid, stat, r, heq, props⟩
    refine ⟨a, smtpTag ++ ds ++ closeTag ++ qid ++ colonSpace ++ mid ++
      statusEqL ++ stat ++ [' '] ++ r, ?_, ?_⟩
    · rw [heq]; simp [List.append_assoc]
    · exact (matchBouncedAt_some_iff _).mpr ⟨ds, qid, mid, stat, r, rfl, props⟩

theorem containsSeq_iff (pat s : List Char) :
    containsSeq pat s = true ↔ ∃ a r, s = a ++ (pat ++ r) := by
  induction s with
  | nil =>
    simp only [containsSeq, matchLit_isSome_iff]
    constructor
    · rintro ⟨r, hr⟩; exact ⟨[], r, by simpa using hr⟩
    · rintro ⟨a, r, har⟩
      have h1 := List.append_eq_nil.mp har.symm
      have h2 := List.append_eq_nil.mp h1.2
      exact ⟨[], by simp [h2.1]⟩
  | cons c rest ih =>
    simp only [containsSeq, Bool.or_eq_true, matchLit_isSome_iff, ih]
    constructor
    · rintro (⟨r, hr⟩ | ⟨a, r, har⟩)
      · exact ⟨[], r, by simpa using hr⟩
      · exact ⟨c :: a, r, by simp [har]⟩
    · rintro ⟨a, r, har⟩
      cases a with
      | nil => exact Or.inl ⟨r, by simpa using har⟩
      | cons a0 a' =>
        simp only [List.cons_append, List.cons.injEq] at har
        exact Or.inr ⟨a', r, har.2⟩

/-- A line admitting the primary-pattern decomposition contains the literal
`", status=bounced "` or the literal `", status=deferred "`. -/
theorem spec_contains_status (line : List Char) (h : SpecDeliveryFailure line) :
    containsSeq litBounced line = true ∨ containsSeq litDeferred line = true := by
  obtain ⟨a, ds, qid, mid, stat, r, heq, _, _, _, _, _, hstat⟩ := h
  rcases hstat with hst | hst <;> subst hst
  · left
    rw [containsSeq_iff]
    refine ⟨a ++ smtpTag ++ ds ++ closeTag ++ qid ++ colonSpace ++ mid, r, ?_⟩
    rw [heq]; simp [litBounced, List.append_assoc]
  · right
    rw [containsSeq_iff]
    refine ⟨a ++ smtpTag ++ ds ++ closeTag ++ qid ++ colonSpace ++ mid, r, ?_⟩
    rw [heq]; simp [litDeferred, List.append_assoc]

theorem mem_dictInsert (x k : List Char) (d : List (List Char)) :
    x ∈ dictInsert k d ↔ x = k ∨ x ∈ d := by
  unfold dictInsert
  by_cases h : k ∈ d
  · rw [if_pos h]
    constructor
    · exact Or.inr
    · rintro (rfl | hx)
      · exact h
      · exact hx
  · rw [if_neg h]
    simp [List.mem_append, or_comm]

/-! ### Claim C3: the primary matcher -/

/-- C3: for every line, the primary matcher yields an identifier (which
`processLine` then inserts into the blocked set) exactly when the line
contains the delivery-agent tag `" postfix/smtp["` with a pid, an
alphanumeric identifier token, and later in the line a
`", status=bounced "` or `", status=deferred "` field, matched
case-sensitively; a line containing neither status literal — such as one
whose status value is `sent` — never yields an identifier and leaves the
aggregator state unchanged. -/
theorem claim_C3_primary_matcher (line : List Char) :
    ((searchBounced line).isSome = true ↔ SpecDeliveryFailure line) ∧
    (∀ pb q, searchBounced line = some q → q ∈ (processLine pb line).blocked) ∧
    (searchBounced line = none → ∀ pb, processLine pb line = pb) ∧
    (containsSeq litBounced line = false → containsSeq litDeferred line = false →
      searchBounced line = none) := by
  refine ⟨searchBounced_spec_iff line, ?_, ?_, ?_⟩
  · intro pb q hq
    by_cases hr : isRejection line = true
    · simp only [processLine, hq, hr, if_true]
      exact (mem_dictInsert q q pb.blocked).mpr (Or.inl rfl)
    · simp only [processLine, hq, hr, if_false]
      exact (mem_dictInsert q q pb.blocked).mpr (Or.inl rfl)
  · intro h pb
    simp [processLine, h]
  · intro h1 h2
    cases hsb : searchBounced line with
    | none => rfl
    | some q =>
      exfalso
      have hs : (searchBounced line).isSome = true := by rw [hsb]; rfl
      have hspec := (searchBounced_spec_iff line).mp hs
      rcases spec_contains_status line hspec with hc | hc
      · rw [h1] at hc; simp at hc
      · rw [h2] at hc; simp at hc

/-- Witness for C3 at concrete inputs: a `status=sent` line yields nothing,
and a `status=bounced` line's identifier lands in the blocked set. -/
theorem claim_C3_witness :
    searchBounced "May  1 postfix/smtp[123]: 9A2F1: to=<a@b>, status=sent (ok)".toList = none ∧
    ['9', 'A', '2', 'F', '1'] ∈ (processLine (PostfixBounces.init (some 1) (some 2) false)
      "May  1 postfix/smtp[123]: 9A2F1: to=<a@b>, status=bounced (x)".toList).blocked :=
  ⟨(claim_C3_primary_matcher _).2.2.2 (by decide) (by decide),
   (claim_C3_primary_matcher _).2.1 (PostfixBounces.init (some 1) (some 2) false)
     ['9', 'A', '2', 'F', '1'] (by decide)⟩

/-! ### Characterization of the rejection search -/

theorem findTail_iff (suf : List Char) (s : List Char) :
    findTail suf s = true ↔
      ∃ m r, s = m ++ (suf ++ r) ∧ ∀ c ∈ m, c ≠ '\n' := by
  induction s with
  | nil =>
    simp only [findTail, matchLit_isSome_iff]
    constructor
    · rintro ⟨r, hr⟩; exact ⟨[], r, by simpa using hr, by simp⟩
    · rintro ⟨m, r, hmr, _⟩
      exact ⟨r, ((List.append_eq_nil.mp hmr.symm).2).symm⟩
  | cons c rest ih =>
    simp only [findTail, Bool.or_eq_true, Bool.and_eq_true, bne_iff_ne, ne_eq,
      matchLit_isSome_iff, ih]
    constructor
    · rintro (⟨r, hr⟩ | ⟨hc, m, r, hmr, hm⟩)
      · exact ⟨[], r, by simpa using hr, by simp⟩
      · refine ⟨c :: m, r, by simp [hmr], ?_⟩
        intro d hd
        rcases List.mem_cons.mp hd with h | h
        · rw [h]; exact hc
        · exact hm d h
    · rintro ⟨m, r, hmr, hm⟩
      cases m with
      | nil => exact Or.inl ⟨r, by simpa using hmr⟩
      | cons m0 m' =>
        simp only [List.cons_append, List.cons.injEq] at hmr
        refine Or.inr ⟨?_, m', r, hmr.2, fun d hd => hm d (by simp [hd])⟩
        rw [hmr.1]; exact hm m0 (by simp)

theorem searchSaid_iff (pre suf : List Char) (hpre : pre ≠ []) (s : List Char) :
    searchSaid pre suf s = true ↔
      ∃ a m r, s = a ++ (pre ++ (m ++ (suf ++ r))) ∧ ∀ c ∈ m, c ≠ '\n' := by
  induction s with
  | nil =>
    simp only [searchSaid]
    constructor
    · intro h; exact absurd h (by simp)
    · rintro ⟨a, m, r, hmr, _⟩
      have h1 := List.append_eq_nil.mp hmr.symm
      have h2 := List.append_eq_nil.mp h1.2
      exact absurd h2.1 hpre
  | cons c rest ih =>
    constructor
    · intro h
      simp only [searchSaid, Bool.or_eq_true] at h
      rcases h with h | h
      · cases h1 : matchLit pre (c :: rest) with
        | none => rw [h1] at h; exact absurd h (by simp)
        | some t =>
          simp only [h1] at h
          obtain ⟨m, r, ht, hm⟩ := (findTail_iff suf t).mp h
          refine ⟨[], m, r, ?_, hm⟩
          have := (matchLit_eq_some _ _ _).mp h1
          rw [this, ht]; simp
      · obtain ⟨a, m, r, hmr, hm⟩ := ih.mp h
        exact ⟨c :: a, m, r, by simp [hmr], hm⟩
    · rintro ⟨a, m, r, hmr, hm⟩
      cases a with
      | nil =>
        simp only [List.nil_append] at hmr
        have h1 : matchLit pre (c :: rest) = some (m ++ (suf ++ r)) :=
          (matchLit_eq_some _ _ _).mpr hmr
        have h2 : findTail suf (m ++ (suf ++ r)) = true :=
          (findTail_iff _ _).mpr ⟨m, r, rfl, hm⟩
        simp [searchSaid, h1, h2]
      | cons a0 a' =>
        simp only [List.cons_append, List.cons.injEq] at hmr
        have hrest := ih.mpr ⟨a', m, r, hmr.2, hm⟩
        simp [searchSaid, hrest]

/-! ### Claim C4: the rejection check -/

/-- C4: for every line, the rejection check succeeds exactly when the line,
lowercased, contains one of the three signatures anywhere: `" said: 550 "`
followed later (across non-newline characters) by `"spam"`, or
`" said: 550 "` followed by `"blocked"`, or `" said: 451 "` followed by
`"busy"`; any single signature suffices. -/
theorem claim_C4_rejection_check (line : List Char) :
    isRejection line = true ↔ SpecRejection line := by
  simp only [isRejection, SpecRejection, Bool.or_eq_true]
  rw [searchSaid_iff said550 spamW (by decide),
    searchSaid_iff said550 blockedW (by decide),
    searchSaid_iff said451 busyW (by decide)]
  simp only [List.append_assoc]
  exact or_assoc

/-- Witness for C4 at a concrete input: a line carrying the
`550 ... spam` signature satisfies the specification-side predicate. -/
theorem claim_C4_witness :
    SpecRejection " said: 550 bulk spam".toList :=
  (claim_C4_rejection_check _).mp (by decide)

/-! ### Aggregator invariants -/

theorem nodup_dictInsert (k : List Char) (d : List (List Char)) (h : d.Nodup) :
    (dictInsert k d).Nodup := by
  unfold dictInsert
  by_cases hk : k ∈ d
  · rwa [if_pos hk]
  · rw [if_neg hk, List.nodup_append]
    exact ⟨h, List.nodup_singleton k, by simpa using hk⟩

theorem processLine_fields (pb : PostfixBounces) (line : List Char) :
    (processLine pb line).warn = pb.warn ∧ (processLine pb line).crit = pb.crit ∧
    (processLine pb line).debug = pb.debug ∧
    (processLine pb line).processed = pb.processed := by
  cases h : searchBounced line with
  | none => simp [processLine, h]
  | some q => by_cases hr : isRejection line = true <;> simp [processLine, h, hr]

theorem foldl_fields (lines : List (List Char)) :
    ∀ pb : PostfixBounces,
      (List.foldl processLine pb lines).warn = pb.warn ∧
      (List.foldl processLine pb lines).crit = pb.crit ∧
      (List.foldl processLine pb lines).debug = pb.debug ∧
      (List.foldl processLine pb lines).processed = pb.processed := by
  induction lines with
  | nil => intro pb; exact ⟨rfl, rfl, rfl, rfl⟩
  | cons l ls ih =>
    intro pb
    simp only [List.foldl_cons]
    have h := processLine_fields pb l
    have h2 := ih (processLine pb l)
    exact ⟨h2.1.trans h.1, h2.2.1.trans h.2.1, h2.2.2.1.trans h.2.2.1,
      h2.2.2.2.trans h.2.2.2⟩

theorem processLine_inv (pb : PostfixBounces) (line : List Char)
    (h1 : ∀ q ∈ pb.worrisome, q ∈ pb.blocked)
    (h2 : pb.blocked.Nodup) (h3 : pb.worrisome.Nodup) :
    (∀ q ∈ (processLine pb line).worrisome, q ∈ (processLine pb line).blocked) ∧
    (processLine pb line).blocked.Nodup ∧
    (processLine pb line).worrisome.Nodup := by
  cases h : searchBounced line with
  | none =>
    simp only [processLine, h]
    exact ⟨h1, h2, h3⟩
  | some q =>
    by_cases hr : isRejection line = true
    · simp only [processLine, h, hr, if_true]
      refine ⟨?_, nodup_dictInsert _ _ h2, nodup_dictInsert _ _ h3⟩
      intro x hx
      rcases (mem_dictInsert x q pb.worrisome).mp hx with hxq | hx'
      · rw [hxq]; exact (mem_dictInsert q q pb.blocked).mpr (Or.inl rfl)
      · exact (mem_dictInsert x q pb.blocked).mpr (Or.inr (h1 x hx'))
    · simp only [processLine, h, hr, if_false]
      refine ⟨?_, nodup_dictInsert _ _ h2, h3⟩
      intro x hx
      exact (mem_dictInsert x q pb.blocked).mpr (Or.inr (h1 x hx))

theorem foldl_inv (lines : List (List Char)) :
    ∀ pb : PostfixBounces,
      (∀ q ∈ pb.worrisome, q ∈ pb.blocked) → pb.blocked.Nodup →
      pb.worrisome.Nodup →
      (∀ q ∈ (List.foldl processLine pb lines).worrisome,
          q ∈ (List.foldl processLine pb lines).blocked) ∧
      (List.foldl processLine pb lines).blocked.Nodup ∧
      (List.foldl processLine pb lines).worrisome.Nodup := by
  induction lines with
  | nil => intro pb h1 h2 h3; exact ⟨h1, h2, h3⟩
  | cons l ls ih =>
    intro pb h1 h2 h3
    simp only [List.foldl_cons]
    have h := processLine_inv pb l h1 h2 h3
    exact ih (processLine pb l) h.1 h.2.1 h.2.2

/-! ### Claim C1: worrisome is a subset of blocked -/

/-- C1: for every line sequence, after `process` completes every identifier
in the worrisome set also lies in the blocked set, and hence the worrisome
cardinality is at most the blocked cardinality. -/
theorem claim_C1_worrisome_subset_blocked (warn crit : Option Int)
    (debug : Bool) (lines : List (List Char)) :
    (∀ q ∈ ((PostfixBounces.init warn crit debug).process lines).worrisome,
        q ∈ ((PostfixBounces.init warn crit debug).process lines).blocked) ∧
    ((PostfixBounces.init warn crit debug).process lines).worrisome.length ≤
      ((PostfixBounces.init warn crit debug).process lines).blocked.length := by
  have h := foldl_inv lines (PostfixBounces.init warn crit debug)
    (by simp [PostfixBounces.init]) (by simp [PostfixBounces.init])
    (by simp [PostfixBounces.init])
  constructor
  · intro q hq
    simp only [PostfixBounces.process] at hq ⊢
    exact h.1 q hq
  · simp only [PostfixBounces.process]
    exact List.Subperm.length_le
      (List.subperm_of_subset h.2.2 fun q hq => h.1 q hq)

/-! ### Claim C5: idempotent insertion -/

theorem foldl_blocked_mono (lines : List (List Char)) :
    ∀ (pb : PostfixBounces) (qid : List Char), qid ∈ pb.blocked →
      qid ∈ (List.foldl processLine pb lines).blocked := by
  induction lines with
  | nil => intro pb qid h; exact h
  | cons l ls ih =>
    intro pb qid h
    simp only [List.foldl_cons]
    apply ih
    cases hs : searchBounced l with
    | none => simpa [processLine, hs] using h
    | some q =>
      by_cases hr : isRejection l = true
      · simp only [processLine, hs, hr, if_true]
        exact (mem_dictInsert _ _ _).mpr (Or.inr h)
      · simp only [processLine, hs, hr, if_false]
        exact (mem_dictInsert _ _ _).mpr (Or.inr h)

theorem match_mem_blocked (lines : List (List Char)) :
    ∀ (pb : PostfixBounces) (qid : List Char),
      (∃ l ∈ lines, searchBounced l = some qid) →
      qid ∈ (List.foldl processLine pb lines).blocked := by
  induction lines with
  | nil => rintro pb qid ⟨l, hl, _⟩; exact absurd hl (by simp)
  | cons l0 ls ih =>
    rintro pb qid ⟨l, hl, hsl⟩
    simp only [List.foldl_cons]
    rcases List.mem_cons.mp hl with heq | hl'
    · subst heq
      apply foldl_blocked_mono ls
      by_cases hr : isRejection l = true
      · simp only [processLine, hsl, hr, if_true]
        exact (mem_dictInsert _ _ _).mpr (Or.inl rfl)
      · simp only [processLine, hsl, hr, if_false]
        exact (mem_dictInsert _ _ _).mpr (Or.inl rfl)
    · exact ih (processLine pb l0) qid ⟨l, hl', hsl⟩

theorem count_eq_one_of_nodup_mem (a : List Char) :
    ∀ l : List (List Char), l.Nodup → a ∈ l → List.count a l = 1 := by
  intro l
  induction l with
  | nil => intro _ h; exact absurd h (by simp)
  | cons b t ih =>
    intro hnd hmem
    rcases List.mem_cons.mp hmem with heq | hmem'
    · subst heq
      rw [List.count_cons_self, List.count_eq_zero.mpr (List.nodup_cons.mp hnd).1]
    · have hne : a ≠ b := by
        intro h
        exact (List.nodup_cons.mp hnd).1 (h ▸ hmem')
      rw [List.count_cons_of_ne hne]
      exact ih (List.nodup_cons.mp hnd).2 hmem'

theorem count_le_one_of_nodup (a : List Char) :
    ∀ l : List (List Char), l.Nodup → List.count a l ≤ 1 := by
  intro l
  induction l with
  | nil => intro _; simp
  | cons b t ih =>
    intro hnd
    by_cases h : a = b
    · subst h
      rw [List.count_cons_self, List.count_eq_zero.mpr (List.nodup_cons.mp hnd).1]
    · rw [List.count_cons_of_ne h]
      exact Nat.le_trans (ih (List.nodup_cons.mp hnd).2) (by simp)

/-- C5: an identifier carried by several qualifying lines is counted exactly
once in the blocked set and at most once in the worrisome set: the dict
insertion is idempotent, so retried messages do not inflate either count. -/
theorem claim_C5_idempotent_counting (warn crit : Option Int) (debug : Bool)
    (lines : List (List Char)) (qid l1 l2 : List Char)
    (h1 : l1 ∈ lines) (h2 : l2 ∈ lines)
    (hm1 : searchBounced l1 = some qid) (hm2 : searchBounced l2 = some qid) :
    List.count qid
        ((PostfixBounces.init warn crit debug).process lines).blocked = 1 ∧
    List.count qid
        ((PostfixBounces.init warn crit debug).process lines).worrisome ≤ 1 := by
  have hinv := foldl_inv lines (PostfixBounces.init warn crit debug)
    (by simp [PostfixBounces.init]) (by simp [PostfixBounces.init])
    (by simp [PostfixBounces.init])
  have hmem := match_mem_blocked lines (PostfixBounces.init warn crit debug)
    qid ⟨l1, h1, hm1⟩
  simp only [PostfixBounces.process]
  constructor
  · exact count_eq_one_of_nodup_mem qid _ hinv.2.1 hmem
  · exact count_le_one_of_nodup qid _ hinv.2.2

/-- Witness for C5 at a concrete input: two qualifying lines carrying the
identifier `AB12` leave one blocked entry and at most one worrisome entry. -/
theorem claim_C5_witness :
    List.count ['A', 'B', '1', '2']
        ((PostfixBounces.init (some 1) (some 2) false).process
          ["a postfix/smtp[1]: AB12: x, status=bounced yz".toList,
           "b postfix/smtp[2]: AB12: q, status=deferred z".toList]).blocked = 1 ∧
    List.count ['A', 'B', '1', '2']
        ((PostfixBounces.init (some 1) (some 2) false).process
          ["a postfix/smtp[1]: AB12: x, status=bounced yz".toList,
           "b postfix/smtp[2]: AB12: q, status=deferred z".toList]).worrisome ≤ 1 :=
  claim_C5_idempotent_counting (some 1) (some 2) false
    ["a postfix/smtp[1]: AB12: x, status=bounced yz".toList,
     "b postfix/smtp[2]: AB12: q, status=deferred z".toList]
    ['A', 'B', '1', '2']
    "a postfix/smtp[1]: AB12: x, status=bounced yz".toList
    "b postfix/smtp[2]: AB12: q, status=deferred z".toList
    (by decide) (by decide) (by decide) (by decide)

/-! ### Claim C2: threshold precedence in `report` -/

/-- C2: on a completed scan with both thresholds supplied, `report` picks
`Critical` first when the worrisome count meets the critical threshold, then
`Warning` when it meets the warning threshold, else `Ok`; a count equal to
the warning threshold (and below critical) yields `Warning`, and one equal
to the critical threshold yields `Critical` even when it also meets the
warning threshold. -/
theorem claim_C2_threshold_precedence (st : PostfixBounces) (w c : Int)
    (hp : st.processed = true) (hw : st.warn = some w) (hc : st.crit = some c) :
    ((st.worrisome.length : Int) ≥ c → st.report.exit_code = some CRITICAL) ∧
    ((st.worrisome.length : Int) < c → (st.worrisome.length : Int) ≥ w →
      st.report.exit_code = some WARNING) ∧
    ((st.worrisome.length : Int) < c → (st.worrisome.length : Int) < w →
      st.report.exit_code = some OK) ∧
    ((st.worrisome.length : Int) = c → st.report.exit_code = some CRITICAL) ∧
    ((st.worrisome.length : Int) = w → (st.worrisome.length : Int) < c →
      st.report.exit_code = some WARNING) := by
  have hrep : st.report.exit_code =
      some (if pyGe (st.worrisome.length : Int) (some c) then CRITICAL
        else if pyGe (st.worrisome.length : Int) (some w) then WARNING
        else OK) := by
    simp [PostfixBounces.report, hp, hw, hc]
  refine ⟨?_, ?_, ?_, ?_, ?_⟩ <;>
    first
    | (intro h
       rw [hrep]
       simp only [pyGe, decide_eq_true_eq]
       split_ifs with hA hB <;> first | rfl | (exfalso; omega))
    | (intro h1 h2
       rw [hrep]
       simp only [pyGe, decide_eq_true_eq]
       split_ifs with hA hB <;> first | rfl | (exfalso; omega))

/-- Witness for C2 at concrete completed states (zero counts, thresholds
chosen to hit each branch and both boundary cases). -/
theorem claim_C2_witness :
    (PostfixBounces.report
      ⟨some 0, some 0, false, true, [], [], none, none, []⟩).exit_code =
        some CRITICAL ∧
    (PostfixBounces.report
      ⟨some 0, some 5, false, true, [], [], none, none, []⟩).exit_code =
        some WARNING ∧
    (PostfixBounces.report
      ⟨some 3, some 5, false, true, [], [], none, none, []⟩).exit_code =
        some OK :=
  ⟨(claim_C2_threshold_precedence _ 0 0 rfl rfl rfl).1 (by decide),
   (claim_C2_threshold_precedence _ 0 5 rfl rfl rfl).2.1 (by decide) (by decide),
   (claim_C2_threshold_precedence _ 3 5 rfl rfl rfl).2.2.1 (by decide) (by decide)⟩

/-! ### Claim C6: report before any processing -/

/-- C6: calling `report` on a freshly constructed aggregator (no `process`
call) yields exit code `UNKNOWN` with the fixed no-analysis note; being a
total function, it cannot raise. -/
theorem claim_C6_report_before_process (warn crit : Option Int) (debug : Bool) :
    ((PostfixBounces.init warn crit debug).report).exit_code = some UNKNOWN ∧
    ((PostfixBounces.init warn crit debug).report).exit_note =
      some "UNKNOWN No mail log analysis to report on" :=
  ⟨rfl, rfl⟩

/-! ### Claim C7: the report note format -/

theorem report_note_shape (st : PostfixBounces) (hp : st.processed = true) :
    ∃ lvl : String,
      (lvl = "OK" ∨ lvl = "WARN" ∨ lvl = "CRITICAL" ∨ lvl = "UNKNOWN") ∧
      st.report.exit_note = some (lvl ++ " " ++ toString st.worrisome.length ++
        " worrisome | blocked=" ++ toString st.blocked.length ++
        " worrisome=" ++ toString st.worrisome.length) := by
  by_cases h1 : pyGe (st.worrisome.length : Int) st.crit = true
  · exact ⟨"CRITICAL", by simp,
      by simp [PostfixBounces.report, hp, h1, statusString, CRITICAL, OK, WARNING]⟩
  · by_cases h2 : pyGe (st.worrisome.length : Int) st.warn = true
    · exact ⟨"WARN", by simp,
        by simp [PostfixBounces.report, hp, h1, h2, statusString, CRITICAL, OK, WARNING]⟩
    · exact ⟨"OK", by simp,
        by simp [PostfixBounces.report, hp, h1, h2, statusString, CRITICAL, OK, WARNING]⟩

/-- C7: after every completed scan the note is exactly
`"<LEVEL> <worrisome> worrisome | blocked=<blocked> worrisome=<worrisome>"`
with `<LEVEL>` one of `OK`, `WARN`, `CRITICAL`, `UNKNOWN` and the two counts
the final cardinalities of the two sets. -/
theorem claim_C7_note_format (warn crit : Option Int) (debug : Bool)
    (lines : List (List Char)) :
    ∃ lvl : String,
      (lvl = "OK" ∨ lvl = "WARN" ∨ lvl = "CRITICAL" ∨ lvl = "UNKNOWN") ∧
      ((PostfixBounces.init warn crit debug).process lines).report.exit_note =
        some (lvl ++ " " ++
          toString ((PostfixBounces.init warn crit debug).process
            lines).worrisome.length ++
          " worrisome | blocked=" ++
          toString ((PostfixBounces.init warn crit debug).process
            lines).blocked.length ++
          " worrisome=" ++
          toString ((PostfixBounces.init warn crit debug).process
            lines).worrisome.length) :=
  report_note_shape _ (by simp [PostfixBounces.process])

/-! ### Claim C10: debug tracing does not affect the report -/

theorem processLine_debug_indep (pb1 pb2 : PostfixBounces) (line : List Char)
    (hw : pb1.warn = pb2.warn) (hc : pb1.crit = pb2.crit)
    (hp : pb1.processed = pb2.processed)
    (hb : pb1.blocked = pb2.blocked) (hwo : pb1.worrisome = pb2.worrisome) :
    (processLine pb1 line).warn = (processLine pb2 line).warn ∧
    (processLine pb1 line).crit = (processLine pb2 line).crit ∧
    (processLine pb1 line).processed = (processLine pb2 line).processed ∧
    (processLine pb1 line).blocked = (processLine pb2 line).blocked ∧
    (processLine pb1 line).worrisome = (processLine pb2 line).worrisome := by
  cases hs : searchBounced line with
  | none =>
    simp only [processLine, hs]
    exact ⟨hw, hc, hp, hb, hwo⟩
  | some q =>
    cases hri : isRejection line <;>
      simp [processLine, hs, hri, hw, hc, hp, hb, hwo]

theorem foldl_debug_indep (lines : List (List Char)) :
    ∀ pb1 pb2 : PostfixBounces,
      pb1.warn = pb2.warn → pb1.crit = pb2.crit →
      pb1.processed = pb2.processed →
      pb1.blocked = pb2.blocked → pb1.worrisome = pb2.worrisome →
      (List.foldl processLine pb1 lines).warn =
          (List.foldl processLine pb2 lines).warn ∧
      (List.foldl processLine pb1 lines).crit =
          (List.foldl processLine pb2 lines).crit ∧
      (List.foldl processLine pb1 lines).processed =
          (List.foldl processLine pb2 lines).processed ∧
      (List.foldl processLine pb1 lines).blocked =
          (List.foldl processLine pb2 lines).blocked ∧
      (List.foldl processLine pb1 lines).worrisome =
          (List.foldl processLine pb2 lines).worrisome := by
  induction lines with
  | nil => intro pb1 pb2 hw hc hp hb hwo; exact ⟨hw, hc, hp, hb, hwo⟩
  | cons l ls ih =>
    intro pb1 pb2 hw hc hp hb hwo
    simp only [List.foldl_cons]
    have h := processLine_debug_indep pb1 pb2 l hw hc hp hb hwo
    exact ih _ _ h.1 h.2.1 h.2.2.1 h.2.2.2.1 h.2.2.2.2

theorem report_state_indep (pb1 pb2 : PostfixBounces)
    (hw : pb1.warn = pb2.warn) (hc : pb1.crit = pb2.crit)
    (hp : pb1.processed = pb2.processed)
    (hb : pb1.blocked = pb2.blocked) (hwo : pb1.worrisome = pb2.worrisome) :
    pb1.report.blocked = pb2.report.blocked ∧
    pb1.report.worrisome = pb2.report.worrisome ∧
    pb1.report.exit_code = pb2.report.exit_code ∧
    pb1.report.exit_note = pb2.report.exit_note := by
  by_cases hproc : pb2.processed = false
  · have hproc1 : pb1.processed = false := hp.trans hproc
    simp [PostfixBounces.report, hproc, hproc1, hb, hwo]
  · have hproc' : pb2.processed = true := by
      revert hproc; cases pb2.processed <;> simp
    have hproc1 : pb1.processed = true := hp.trans hproc'
    simp [PostfixBounces.report, hproc', hproc1, hb, hwo, hw, hc]

/-- C10: two runs on the same lines and thresholds that differ only in the
debug/verbosity flag produce the same blocked set, worrisome set, exit code
and note: the stderr tracing never feeds back into the report. -/
theorem claim_C10_debug_noninterference (warn crit : Option Int)
    (d1 d2 : Bool) (lines : List (List Char)) :
    ((PostfixBounces.init warn crit d1).process lines).report.blocked =
      ((PostfixBounces.init warn crit d2).process lines).report.blocked ∧
    ((PostfixBounces.init warn crit d1).process lines).report.worrisome =
      ((PostfixBounces.init warn crit d2).process lines).report.worrisome ∧
    ((PostfixBounces.init warn crit d1).process lines).report.exit_code =
      ((PostfixBounces.init warn crit d2).process lines).report.exit_code ∧
    ((PostfixBounces.init warn crit d1).process lines).report.exit_note =
      ((PostfixBounces.init warn crit d2).process lines).report.exit_note := by
  have h := foldl_debug_indep lines (PostfixBounces.init warn crit d1)
    (PostfixBounces.init warn crit d2) rfl rfl rfl rfl rfl
  apply report_state_indep
  · simpa [PostfixBounces.process] using h.1
  · simpa [PostfixBounces.process] using h.2.1
  · simp [PostfixBounces.process]
  · simpa [PostfixBounces.process] using h.2.2.2.1
  · simpa [PostfixBounces.process] using h.2.2.2.2

/-! ### Claims C8 and C9: the CLI gate -/

/-- Counterexample to C8 as stated: the critical threshold is supplied
(value `0`), yet the program takes the usage-help path instead of scanning,
because the gate tests Python truthiness rather than option presence. -/
theorem claim_C8_counterexample :
    mainRun none (some 0) 0 [] = MainResult.usageHelp UNKNOWN ∧
    (mainRun none (some 0) 0 []).isRan = false :=
  ⟨rfl, rfl⟩

/-- C8 (amended): a threshold option makes the other optional only when it
is supplied with a truthy (nonzero) value; when neither option is truthy —
in particular when neither is supplied — the program prints usage help and
returns `UNKNOWN` without scanning; the exit codes are `OK=0`, `WARNING=1`,
`CRITICAL=2`, `UNKNOWN=3`. -/
theorem claim_C8_gate_amended (warn crit : Option Int) (verbose : Nat)
    (lines : List (List Char)) :
    (truthyInt crit = true → (mainRun warn crit verbose lines).isRan = true) ∧
    (truthyInt warn = true → (mainRun warn crit verbose lines).isRan = true) ∧
    (truthyInt warn = false → truthyInt crit = false →
      mainRun warn crit verbose lines = MainResult.usageHelp UNKNOWN) ∧
    (OK = 0 ∧ WARNING = 1 ∧ CRITICAL = 2 ∧ UNKNOWN = 3) := by
  refine ⟨?_, ?_, ?_, rfl, rfl, rfl, rfl⟩
  · intro h; simp [mainRun, h, MainResult.isRan]
  · intro h; simp [mainRun, h, MainResult.isRan]
  · intro h1 h2; simp [mainRun, h1, h2]

/-- Witness for the amended C8 at concrete inputs: supplying only a nonzero
threshold scans; supplying neither prints usage help. -/
theorem claim_C8_witness :
    (mainRun none (some 1) 0 []).isRan = true ∧
    (mainRun (some 1) none 0 []).isRan = true ∧
    mainRun none none 0 [] = MainResult.usageHelp UNKNOWN :=
  ⟨(claim_C8_gate_amended none (some 1) 0 []).1 (by decide),
   (claim_C8_gate_amended (some 1) none 0 []).2.1 (by decide),
   (claim_C8_gate_amended none none 0 []).2.2.1 (by decide) (by decide)⟩

/-- C9: supplying both thresholds explicitly as `0` — a permitted
non-negative value — still takes the no-threshold usage path, because the
gate tests truthiness (`0` is falsy in Python) rather than presence. -/
theorem claim_C9_zero_thresholds (verbose : Nat) (lines : List (List Char)) :
    mainRun (some 0) (some 0) verbose lines = MainResult.usageHelp UNKNOWN ∧
    UNKNOWN = 3 := by
  constructor
  · simp [mainRun, truthyInt]
  · rfl

/-- Witness for C1 at a concrete input: a bounced line carrying a `550 spam`
rejection puts its identifier in both sets, and the cardinality inequality
holds there. -/
theorem claim_C1_witness :
    ['A', 'B', '1', '2'] ∈
      ((PostfixBounces.init (some 1) (some 2) false).process
        ["a postfix/smtp[1]: AB12: x, status=bounced (h said: 550 spam) y".toList]).blocked ∧
    ((PostfixBounces.init (some 1) (some 2) false).process
        ["a postfix/smtp[1]: AB12: x, status=bounced (h said: 550 spam) y".toList]).worrisome.length ≤
      ((PostfixBounces.init (some 1) (some 2) false).process
        ["a postfix/smtp[1]: AB12: x, status=bounced (h said: 550 spam) y".toList]).blocked.length :=
  ⟨(claim_C1_worrisome_subset_blocked (some 1) (some 2) false
      ["a postfix/smtp[1]: AB12: x, status=bounced (h said: 550 spam) y".toList]).1
    ['A', 'B', '1', '2'] (by decide),
   (claim_C1_worrisome_subset_blocked (some 1) (some 2) false
      ["a postfix/smtp[1]: AB12: x, status=bounced (h said: 550 spam) y".toList]).2⟩
